import Mathlib

/-!
# Shadow-state and unit-conversion verification for the UFO MCP server core

Shallow embedding of `internal/state/state.go`, `internal/device/conversions.go`
and the segment decoder `parseLedColors` (tools layer), together with proofs
about the embedded operations.

Conventions of the embedding:
* Go `int` is modelled as `Int` (no overflow is exercised by any claim).
* Go `float64` arithmetic in the converters is modelled by exact rational
  arithmetic (`ℚ`); on every integer input range quantified over below the two
  agree exactly (the rounded quantities stay far enough from ties that the
  `≈ 1e-13` float error cannot change any rounded result).
* `math.Round` (round half away from zero) is `goRound`; Go's `int(x)`
  float-to-int conversion (truncation toward zero) is `truncQ`.
* `fmt.Sprintf("%d", n)` is `intToString`, `strconv.Atoi` is `atoi`,
  `strings.Split(s, "|")` is `splitOnBar`, each defined below.
* The event broadcaster is modelled as an append-only list of published
  events carried inside the manager value.
-/

namespace UfoMcp

/-- Round half away from zero, the behaviour of Go's `math.Round`. -/
def goRound (x : ℚ) : ℤ :=
  if 0 ≤ x then ⌊x + 1/2⌋ else -⌊-x + 1/2⌋

/-- Truncation toward zero, the behaviour of Go's `int(x)` conversion. -/
def truncQ (x : ℚ) : ℤ :=
  if 0 ≤ x then ⌊x⌋ else ⌈x⌉

/-- The decimal digit character for `n < 10` (`'0' + n`). -/
def digitChar (n : Nat) : Char := Char.ofNat (48 + n)

/-- Decimal digits of `n`, most significant first; structural fuel so the
kernel can evaluate it (`fuel > n` suffices). -/
def natDigitsAux : Nat → Nat → List Char
  | 0, _ => []
  | fuel + 1, n =>
    if n < 10 then [digitChar n]
    else natDigitsAux fuel (n / 10) ++ [digitChar (n % 10)]

/-- Decimal digits of `n`, most significant first. -/
def natDigits (n : Nat) : List Char := natDigitsAux (n + 1) n

/-- Embedding of `fmt.Sprintf("%d", i)` for a Go `int`. -/
def intToString (i : Int) : String :=
  if i < 0 then "-" ++ String.mk (natDigits (-i).toNat)
  else String.mk (natDigits i.toNat)

/-- Numeric value of a decimal digit character, `none` for non-digits. -/
def digitVal (c : Char) : Option Nat :=
  if '0' ≤ c ∧ c ≤ '9' then some (c.toNat - 48) else none

/-- Accumulating decimal parse; fails on the first non-digit character. -/
def parseDigitsAux (acc : Nat) : List Char → Option Nat
  | [] => some acc
  | c :: cs =>
    match digitVal c with
    | some d => parseDigitsAux (10 * acc + d) cs
    | none => none

/-- Parse a non-empty all-digit character list. -/
def parseAllDigits (l : List Char) : Option Nat :=
  if l = [] then none else parseDigitsAux 0 l

/-- Embedding of Go `strconv.Atoi`: optional sign, then a non-empty run of
decimal digits covering the whole string (overflow is not modelled; no claim
exercises it). -/
def atoi (s : String) : Option Int :=
  match s.data with
  | [] => none
  | c :: rest =>
    if c = '-' then (parseAllDigits rest).map (fun v => -(v : Int))
    else if c = '+' then (parseAllDigits rest).map (fun v => (v : Int))
    else (parseAllDigits (c :: rest)).map (fun v => (v : Int))

/-- Split a character list at every `'|'`, the embedding of Go
`strings.Split(s, "|")` (which never returns an empty list). -/
def splitBar : List Char → List (List Char)
  | [] => [[]]
  | c :: cs =>
    if c = '|' then [] :: splitBar cs
    else
      match splitBar cs with
      | [] => [[c]]
      | g :: gs => (c :: g) :: gs

/-- Embedding of `strings.Split(s, "|")`. -/
def splitOnBar (s : String) : List String := (splitBar s.data).map String.mk

/-- Morph settings in milliseconds (`device.MorphConfig`, identical in layout
to `state.MorphData`, which Go converts by a direct struct cast). -/
structure MorphConfig where
  brightnessMs : Int
  fadeMs : Int
deriving DecidableEq, Repr

/-- Embedding of `device.ConvertMorphToDevice`: milliseconds to the device's
`ticks|speed` string (the literal `6.67` is the rational `667/100`). -/
def ConvertMorphToDevice : Option MorphConfig → String
  | none => ""
  | some config =>
    let ticks : ℤ := goRound ((config.brightnessMs : ℚ) / (667 / 100))
    let speed0 : ℤ := goRound ((3333 : ℚ) / (config.fadeMs : ℚ))
    let speed : ℤ := if speed0 < 1 then 1 else if speed0 > 10 then 10 else speed0
    intToString ticks ++ "|" ++ intToString speed

/-- Embedding of `device.ConvertMorphFromDevice`: parse `ticks|speed` and
convert back to milliseconds (truncating float-to-int conversions). -/
def ConvertMorphFromDevice (morphSpec : String) : Option MorphConfig :=
  if morphSpec = "" then none
  else
    match splitOnBar morphSpec with
    | [p0, p1] =>
      match atoi p0 with
      | none => none
      | some ticks =>
        match atoi p1 with
        | none => none
        | some speed =>
          if speed < 1 ∨ speed > 10 then none
          else some ⟨truncQ ((ticks : ℚ) * (667 / 100)), truncQ ((3333 : ℚ) / (speed : ℚ))⟩
    | _ => none

/-- Embedding of `device.ConvertWhirlToDevice`: rotation period in
milliseconds to the device whirl value (clamp to `[1, 510]`, then round). -/
def ConvertWhirlToDevice (rotationMs : Int) : Int :=
  if rotationMs ≤ 0 then 0
  else
    let stepDelayMs : ℚ := (rotationMs : ℚ) / 15
    let whirlSpeed : ℚ := 256 - stepDelayMs
    let whirlSpeed : ℚ := if whirlSpeed < 1 then 1 else whirlSpeed
    let whirlSpeed : ℚ := if whirlSpeed > 510 then 510 else whirlSpeed
    goRound whirlSpeed

/-- Embedding of `device.ConvertDeviceWhirlToMs`. -/
def ConvertDeviceWhirlToMs (whirlSpeed : Int) : Int :=
  if whirlSpeed ≤ 0 then 0
  else
    let stepDelayMs : Int := 256 - whirlSpeed
    let stepDelayMs : Int := if stepDelayMs < 1 then 1 else stepDelayMs
    stepDelayMs * 15

example : atoi "150" = some 150 := by decide
example : splitOnBar "150|10" = ["150", "10"] := by decide

/-! ## Integer characterizations of the rational computations

`Rat` arithmetic does not reduce in the kernel, so we characterize every
converter by an equivalent pure-`Int` computation once and work with that. -/

lemma floor_int_div (a b : ℤ) (hb : 0 < b) : ⌊(a : ℚ) / (b : ℚ)⌋ = a / b := by
  have hbn : ((b.toNat : ℕ) : ℤ) = b := Int.toNat_of_nonneg hb.le
  have hq : ((b.toNat : ℕ) : ℚ) = (b : ℚ) := by exact_mod_cast hbn
  rw [← hq, Rat.floor_intCast_div_natCast, hbn]

lemma goRound_intCast_div (a b : ℤ) (ha : 0 ≤ a) (hb : 0 < b) :
    goRound ((a : ℚ) / (b : ℚ)) = (2 * a + b) / (2 * b) := by
  have hx : (0 : ℚ) ≤ (a : ℚ) / (b : ℚ) :=
    div_nonneg (by exact_mod_cast ha) (by exact_mod_cast hb.le)
  rw [goRound, if_pos hx]
  have hb' : ((b : ℚ)) ≠ 0 := by
    simpa using (show (b : ℚ) ≠ 0 by exact_mod_cast hb.ne')
  have h2 : (a : ℚ) / (b : ℚ) + 1 / 2 = ((2 * a + b : ℤ) : ℚ) / ((2 * b : ℤ) : ℚ) := by
    push_cast
    field_simp
    ring
  rw [h2, floor_int_div _ _ (by omega)]

lemma truncQ_intCast_div (a b : ℤ) (ha : 0 ≤ a) (hb : 0 < b) :
    truncQ ((a : ℚ) / (b : ℚ)) = a / b := by
  have hx : (0 : ℚ) ≤ (a : ℚ) / (b : ℚ) :=
    div_nonneg (by exact_mod_cast ha) (by exact_mod_cast hb.le)
  rw [truncQ, if_pos hx, floor_int_div a b hb]

lemma convertWhirlToDevice_int (ms : ℤ) :
    ConvertWhirlToDevice ms =
      if ms ≤ 0 then 0 else if 3825 < ms then 1 else (7695 - 2 * ms) / 30 := by
  unfold ConvertWhirlToDevice
  by_cases h0 : ms ≤ 0
  · simp [h0]
  · have hms : 0 < ms := lt_of_not_le h0
    rw [if_neg h0, if_neg h0]
    dsimp only
    by_cases h1 : 3825 < ms
    · have hx : (256 : ℚ) - (ms : ℚ) / 15 < 1 := by
        rw [sub_lt_iff_lt_add]
        have : (255 : ℚ) < (ms : ℚ) / 15 := by
          rw [lt_div_iff (by norm_num)]
          exact_mod_cast by omega
        linarith
      rw [if_pos h1, if_pos hx, if_neg (by norm_num)]
      rw [goRound, if_pos (by norm_num)]
      have h32 : (1 : ℚ) + 1 / 2 = ((3 : ℤ) : ℚ) / ((2 : ℤ) : ℚ) := by norm_num
      rw [h32, floor_int_div 3 2 (by norm_num)]
      decide
    · have hle : ms ≤ 3825 := le_of_not_lt h1
      have hx1 : (1 : ℚ) ≤ (256 : ℚ) - (ms : ℚ) / 15 := by
        rw [le_sub_comm]
        have : (ms : ℚ) / 15 ≤ 255 := by
          rw [div_le_iff (by norm_num)]
          exact_mod_cast by omega
        linarith
      have hx510 : ¬ ((256 : ℚ) - (ms : ℚ) / 15 > 510) := by
        push_neg
        have : (0 : ℚ) < (ms : ℚ) / 15 := by positivity
        linarith
      rw [if_neg h1, if_neg (not_lt.mpr hx1), if_neg hx510]
      rw [goRound, if_pos (by linarith)]
      have hrw : (256 : ℚ) - (ms : ℚ) / 15 + 1 / 2 =
          ((7695 - 2 * ms : ℤ) : ℚ) / ((30 : ℤ) : ℚ) := by
        push_cast
        field_simp
        ring
      rw [hrw, floor_int_div _ _ (by norm_num)]

example : ConvertWhirlToDevice 1000 = 189 := by rw [convertWhirlToDevice_int]; decide
example : ConvertWhirlToDevice 15 = 255 := by rw [convertWhirlToDevice_int]; decide
example : ConvertWhirlToDevice 7650 = 1 := by rw [convertWhirlToDevice_int]; decide
example : ConvertDeviceWhirlToMs 189 = 1005 := by decide

lemma goRound_whirl_of_le (ms : ℤ) (h0 : 0 < ms) (hle : ms ≤ 3825) :
    goRound (256 - (ms : ℚ) / 15) = (7695 - 2 * ms) / 30 := by
  have hx1 : (1 : ℚ) ≤ (256 : ℚ) - (ms : ℚ) / 15 := by
    rw [le_sub_comm]
    have : (ms : ℚ) / 15 ≤ 255 := by
      rw [div_le_iff₀ (by norm_num)]
      exact_mod_cast by omega
    linarith
  rw [goRound, if_pos (by linarith)]
  have hrw : (256 : ℚ) - (ms : ℚ) / 15 + 1 / 2 = ((7695 - 2 * ms : ℤ) : ℚ) / ((30 : ℤ) : ℚ) := by
    push_cast
    field_simp
    ring
  rw [hrw, floor_int_div _ _ (by norm_num)]

lemma goRound_whirl_le_one (ms : ℤ) (h1 : 3825 < ms) :
    goRound (256 - (ms : ℚ) / 15) ≤ 1 := by
  have hx : (256 : ℚ) - (ms : ℚ) / 15 < 1 := by
    rw [sub_lt_iff_lt_add]
    have : (255 : ℚ) < (ms : ℚ) / 15 := by
      rw [lt_div_iff₀ (by norm_num)]
      exact_mod_cast by omega
    linarith
  rw [goRound]
  split_ifs with hnn
  · have hfl : (((⌊(256 : ℚ) - (ms : ℚ) / 15 + 1 / 2⌋ : ℤ)) : ℚ) ≤
        (256 : ℚ) - (ms : ℚ) / 15 + 1 / 2 := Int.floor_le _
    have h2 : (((⌊(256 : ℚ) - (ms : ℚ) / 15 + 1 / 2⌋ : ℤ)) : ℚ) < ((2 : ℤ) : ℚ) := by
      push_cast
      linarith
    have h3 : ⌊(256 : ℚ) - (ms : ℚ) / 15 + 1 / 2⌋ < 2 := by exact_mod_cast h2
    omega
  · have h4 : (0 : ℚ) ≤ -((256 : ℚ) - (ms : ℚ) / 15) + 1 / 2 := by
      push_neg at hnn
      linarith
    have h5 : 0 ≤ ⌊-((256 : ℚ) - (ms : ℚ) / 15) + 1 / 2⌋ := Int.floor_nonneg.mpr h4
    omega

/-- The claim's phrasing of the forward whirl conversion — round first, then
clamp to `[1, 510]` — agrees with the code, which clamps before rounding. -/
lemma convertWhirlToDevice_claim_form (ms : ℤ) (h : 0 < ms) :
    ConvertWhirlToDevice ms = min 510 (max 1 (goRound (256 - (ms : ℚ) / 15))) := by
  rw [convertWhirlToDevice_int, if_neg (by omega)]
  by_cases h1 : 3825 < ms
  · rw [if_pos h1, max_eq_left (goRound_whirl_le_one ms h1)]
    norm_num
  · have hle : ms ≤ 3825 := le_of_not_lt h1
    rw [if_neg h1, goRound_whirl_of_le ms h hle]
    rw [max_eq_right (by omega), min_eq_right (by omega)]

/-- Integer form of the brightness-to-ticks conversion (rounding half up). -/
def morphTicksInt (b : ℤ) : ℤ := (200 * b + 667) / 1334

/-- Integer form of the fade-to-speed conversion, clamping to `[1, 10]`. -/
def morphSpeedInt (f : ℤ) : ℤ :=
  if (6666 + f) / (2 * f) < 1 then 1
  else if (6666 + f) / (2 * f) > 10 then 10
  else (6666 + f) / (2 * f)

lemma convertMorphToDevice_int (c : MorphConfig) (hb : 0 ≤ c.brightnessMs)
    (hf : 0 < c.fadeMs) :
    ConvertMorphToDevice (some c) =
      intToString (morphTicksInt c.brightnessMs) ++ "|" ++
        intToString (morphSpeedInt c.fadeMs) := by
  unfold ConvertMorphToDevice
  dsimp only
  have ht : goRound ((c.brightnessMs : ℚ) / (667 / 100)) = morphTicksInt c.brightnessMs := by
    have hrw : (c.brightnessMs : ℚ) / (667 / 100) =
        ((100 * c.brightnessMs : ℤ) : ℚ) / ((667 : ℤ) : ℚ) := by
      push_cast
      field_simp
      ring
    rw [hrw, goRound_intCast_div _ _ (by omega) (by norm_num), morphTicksInt]
    have h2 : 2 * (100 * c.brightnessMs) + 667 = 200 * c.brightnessMs + 667 := by ring
    rw [h2]
    norm_num
  have hs : goRound ((3333 : ℚ) / (c.fadeMs : ℚ)) = (6666 + c.fadeMs) / (2 * c.fadeMs) := by
    have hrw : (3333 : ℚ) = ((3333 : ℤ) : ℚ) := by norm_num
    rw [hrw, goRound_intCast_div _ _ (by norm_num) hf]
    have h2 : 2 * 3333 + c.fadeMs = 6666 + c.fadeMs := by ring
    rw [h2]
  rw [ht, hs, morphSpeedInt]

lemma truncQ_mul_667_100 (t : ℤ) (ht : 0 ≤ t) :
    truncQ ((t : ℚ) * (667 / 100)) = (667 * t) / 100 := by
  have hrw : (t : ℚ) * (667 / 100) = ((667 * t : ℤ) : ℚ) / ((100 : ℤ) : ℚ) := by
    push_cast
    field_simp
    ring
  rw [hrw, truncQ_intCast_div _ _ (by omega) (by norm_num)]

lemma truncQ_3333_div (s : ℤ) (hs : 0 < s) :
    truncQ ((3333 : ℚ) / (s : ℚ)) = 3333 / s := by
  have hrw : (3333 : ℚ) = ((3333 : ℤ) : ℚ) := by norm_num
  rw [hrw, truncQ_intCast_div _ _ (by norm_num) hs]

lemma morphSpeedInt_mem (f : ℤ) : 1 ≤ morphSpeedInt f ∧ morphSpeedInt f ≤ 10 := by
  rw [morphSpeedInt]
  split_ifs <;> omega

/-- Brightness half of the morph round trip: error at most 50 ms (in fact at
most 4 ms) on `[500, 5000]`. -/
lemma morph_bright_roundtrip (b : ℤ) (h1 : 500 ≤ b) (h2 : b ≤ 5000) :
    |667 * morphTicksInt b / 100 - b| ≤ 50 := by
  rw [morphTicksInt, abs_le]
  omega

/-- Fade half of the morph round trip: error at most 1667 ms on `[200, 5000]`
(the bound is attained at 5000 ms). -/
lemma morph_fade_roundtrip (f : ℤ) (h1 : 200 ≤ f) (h2 : f ≤ 5000) :
    |3333 / morphSpeedInt f - f| ≤ 1667 := by
  have hf : 0 < 2 * f := by omega
  rw [morphSpeedInt]
  set q := (6666 + f) / (2 * f) with hqdef
  set r := (6666 + f) % (2 * f) with hrdef
  have he : 2 * f * q + r = 6666 + f := Int.ediv_add_emod (6666 + f) (2 * f)
  have hr0 : 0 ≤ r := Int.emod_nonneg _ (by omega)
  have hrlt : r < 2 * f := Int.emod_lt_of_pos _ hf
  have hq1 : 1 ≤ q := by
    by_contra hcon
    push_neg at hcon
    have hq0 : q ≤ 0 := by omega
    have hnp : 2 * f * q ≤ 0 := mul_nonpos_of_nonneg_of_nonpos (by omega) hq0
    linarith
  have hq17 : q ≤ 17 := by
    by_contra hcon
    push_neg at hcon
    have h18 : 18 ≤ q := by omega
    have hmul : 2 * f * 18 ≤ 2 * f * q := mul_le_mul_of_nonneg_left h18 (by omega)
    linarith
  clear_value q r
  rw [abs_le]
  interval_cases q <;> norm_num <;> omega

/-! ## Decimal printing parses back to the printed number -/

lemma digitVal_digitChar (n : Nat) (h : n < 10) : digitVal (digitChar n) = some n := by
  interval_cases n <;> decide

lemma digitChar_isDigit (n : Nat) (h : n < 10) : '0' ≤ digitChar n ∧ digitChar n ≤ '9' := by
  interval_cases n <;> decide

lemma natDigitsAux_ne_nil (fuel n : Nat) (h : 0 < fuel) : natDigitsAux fuel n ≠ [] := by
  cases fuel with
  | zero => omega
  | succ fuel =>
    rw [natDigitsAux]
    split
    · simp
    · simp

lemma natDigitsAux_isDigit (fuel : Nat) :
    ∀ n, ∀ c ∈ natDigitsAux fuel n, '0' ≤ c ∧ c ≤ '9' := by
  induction fuel with
  | zero => intro n c hc; simp [natDigitsAux] at hc
  | succ fuel ih =>
    intro n c hc
    rw [natDigitsAux] at hc
    split at hc
    · rcases List.mem_singleton.mp hc with rfl
      exact digitChar_isDigit n (by omega)
    · rcases List.mem_append.mp hc with h | h
      · exact ih _ c h
      · rcases List.mem_singleton.mp h with rfl
        exact digitChar_isDigit _ (Nat.mod_lt _ (by omega))

lemma parseDigitsAux_append (l₁ : List Char) :
    ∀ (l₂ : List Char) (acc : Nat),
      parseDigitsAux acc (l₁ ++ l₂) =
        (parseDigitsAux acc l₁).bind (fun v => parseDigitsAux v l₂) := by
  induction l₁ with
  | nil => intro l₂ acc; simp [parseDigitsAux]
  | cons c cs ih =>
    intro l₂ acc
    rw [List.cons_append, parseDigitsAux, parseDigitsAux]
    cases digitVal c with
    | none => simp
    | some d => simp [ih]

lemma parseDigitsAux_natDigitsAux (fuel : Nat) :
    ∀ n acc, n < fuel →
      parseDigitsAux acc (natDigitsAux fuel n) =
        some (acc * 10 ^ (natDigitsAux fuel n).length + n) := by
  induction fuel with
  | zero => intro n acc h; omega
  | succ fuel ih =>
    intro n acc h
    rw [natDigitsAux]
    by_cases h10 : n < 10
    · rw [if_pos h10]
      simp only [parseDigitsAux, digitVal_digitChar n h10]
      simp [parseDigitsAux]
      ring
    · rw [if_neg h10]
      rw [parseDigitsAux_append]
      have hlt : n / 10 < fuel := by omega
      have hmod : n % 10 < 10 := Nat.mod_lt _ (by omega)
      rw [ih (n / 10) acc hlt]
      simp only [Option.some_bind]
      simp only [parseDigitsAux, digitVal_digitChar _ hmod]
      congr 1
      rw [List.length_append]
      have hdm : 10 * (n / 10) + n % 10 = n := Nat.div_add_mod n 10
      have hlen : (natDigitsAux fuel (n / 10)).length + [digitChar (n % 10)].length =
          (natDigitsAux fuel (n / 10)).length + 1 := by simp
      rw [hlen, pow_succ]
      calc 10 * (acc * 10 ^ (natDigitsAux fuel (n / 10)).length + n / 10) + n % 10
          = acc * (10 ^ (natDigitsAux fuel (n / 10)).length * 10) +
              (10 * (n / 10) + n % 10) := by ring
        _ = acc * (10 ^ (natDigitsAux fuel (n / 10)).length * 10) + n := by rw [hdm]

lemma parseDigitsAux_natDigits (n : Nat) : parseDigitsAux 0 (natDigits n) = some n := by
  rw [natDigits, parseDigitsAux_natDigitsAux (n + 1) n 0 (by omega)]
  simp

lemma natDigits_ne_nil (n : Nat) : natDigits n ≠ [] :=
  natDigitsAux_ne_nil (n + 1) n (by omega)

lemma natDigits_isDigit (n : Nat) : ∀ c ∈ natDigits n, '0' ≤ c ∧ c ≤ '9' :=
  natDigitsAux_isDigit (n + 1) n

lemma atoi_mk_natDigits (n : Nat) : atoi (String.mk (natDigits n)) = some (n : Int) := by
  rw [atoi]
  cases hd : natDigits n with
  | nil => exact absurd hd (natDigits_ne_nil n)
  | cons c rest =>
    have hc : '0' ≤ c ∧ c ≤ '9' := by
      apply natDigits_isDigit n
      rw [hd]
      exact List.mem_cons_self c rest
    dsimp only
    rw [if_neg (by rintro rfl; revert hc; decide), if_neg (by rintro rfl; revert hc; decide)]
    rw [parseAllDigits, if_neg (by simp)]
    rw [← hd, parseDigitsAux_natDigits]
    simp

lemma atoi_intToString (t : ℤ) (ht : 0 ≤ t) : atoi (intToString t) = some t := by
  rw [intToString, if_neg (by omega), atoi_mk_natDigits]
  congr 1
  exact Int.toNat_of_nonneg ht

lemma natDigits_no_bar (n : Nat) : '|' ∉ natDigits n := by
  intro hmem
  have := natDigits_isDigit n '|' hmem
  revert this
  decide

/-! ## Splitting on the bar separator -/

lemma splitBar_no_bar (l : List Char) (h : '|' ∉ l) : splitBar l = [l] := by
  induction l with
  | nil => rfl
  | cons c cs ih =>
    rw [splitBar, if_neg (by intro hc; exact h (hc ▸ List.mem_cons_self c cs))]
    rw [ih (fun hm => h (List.mem_cons_of_mem c hm))]

lemma splitBar_append_bar (l₁ l₂ : List Char) (h : '|' ∉ l₁) :
    splitBar (l₁ ++ '|' :: l₂) = l₁ :: splitBar l₂ := by
  induction l₁ with
  | nil =>
    rw [List.nil_append, splitBar, if_pos rfl]
  | cons c cs ih =>
    rw [List.cons_append, splitBar, if_neg (by intro hc; exact h (hc ▸ List.mem_cons_self c cs))]
    rw [ih (fun hm => h (List.mem_cons_of_mem c hm))]

lemma splitOnBar_two (d₁ d₂ : List Char) (h₁ : '|' ∉ d₁) (h₂ : '|' ∉ d₂) :
    splitOnBar (String.mk d₁ ++ "|" ++ String.mk d₂) = [String.mk d₁, String.mk d₂] := by
  rw [splitOnBar]
  have hdata : (String.mk d₁ ++ "|" ++ String.mk d₂).data = d₁ ++ '|' :: d₂ := by
    simp [String.data_append]
  rw [hdata, splitBar_append_bar d₁ d₂ h₁, splitBar_no_bar d₂ h₂]
  rfl

/-! ## The morph round trip, end to end through the device string -/

lemma morphTicksInt_nonneg (b : ℤ) (hb : 0 ≤ b) : 0 ≤ morphTicksInt b :=
  Int.ediv_nonneg (by omega) (by norm_num)

lemma convertMorphFromDevice_toDevice (c : MorphConfig) (hb : 0 ≤ c.brightnessMs)
    (hf : 0 < c.fadeMs) :
    ConvertMorphFromDevice (ConvertMorphToDevice (some c)) =
      some ⟨667 * morphTicksInt c.brightnessMs / 100, 3333 / morphSpeedInt c.fadeMs⟩ := by
  rw [convertMorphToDevice_int c hb hf]
  have ht0 : 0 ≤ morphTicksInt c.brightnessMs := morphTicksInt_nonneg _ hb
  obtain ⟨hs1, hs10⟩ := morphSpeedInt_mem c.fadeMs
  set t := morphTicksInt c.brightnessMs with htdef
  set s := morphSpeedInt c.fadeMs with hsdef
  have hts : intToString t = String.mk (natDigits t.toNat) := by
    rw [intToString, if_neg (by omega)]
  have hss : intToString s = String.mk (natDigits s.toNat) := by
    rw [intToString, if_neg (by omega)]
  rw [hts, hss, ConvertMorphFromDevice]
  have hne : ¬ (String.mk (natDigits t.toNat) ++ "|" ++ String.mk (natDigits s.toNat) = "") := by
    intro hcon
    have hdat := congrArg String.data hcon
    simp [String.data_append] at hdat
  rw [if_neg hne, splitOnBar_two _ _ (natDigits_no_bar _) (natDigits_no_bar _)]
  have hat : atoi (String.mk (natDigits t.toNat)) = some t := by
    rw [atoi_mk_natDigits]
    congr 1
    exact Int.toNat_of_nonneg ht0
  have has : atoi (String.mk (natDigits s.toNat)) = some s := by
    rw [atoi_mk_natDigits]
    congr 1
    exact Int.toNat_of_nonneg (by omega)
  dsimp only
  rw [hat, has]
  dsimp only
  rw [if_neg (by omega)]
  rw [truncQ_mul_667_100 t ht0, truncQ_3333_div s (by omega)]

/-- C4 (amended): for `brightnessMs ∈ [500, 5000]` and `fadeMs ∈ [200, 5000]`,
converting a morph config with `ConvertMorphToDevice` and back with
`ConvertMorphFromDevice` succeeds and yields a brightness within 50 ms of the
original and a fade within 1667 ms of the original (1667 ms is attained at
`fadeMs = 5000`; the claimed 400 ms bound fails, see the counterexample). -/
theorem morph_roundtrip (b f : ℤ) (hb1 : 500 ≤ b) (hb2 : b ≤ 5000)
    (hf1 : 200 ≤ f) (hf2 : f ≤ 5000) :
    ∃ c : MorphConfig,
      ConvertMorphFromDevice (ConvertMorphToDevice (some ⟨b, f⟩)) = some c ∧
      |c.brightnessMs - b| ≤ 50 ∧ |c.fadeMs - f| ≤ 1667 := by
  refine ⟨⟨667 * morphTicksInt b / 100, 3333 / morphSpeedInt f⟩, ?_, ?_, ?_⟩
  · exact convertMorphFromDevice_toDevice ⟨b, f⟩ (by dsimp only; omega) (by dsimp only; omega)
  · exact morph_bright_roundtrip b hb1 hb2
  · exact morph_fade_roundtrip f hf1 hf2

/-- Witness for C4's amended theorem at `(1000, 1000)`. -/
theorem morph_roundtrip_witness :
    ∃ c : MorphConfig,
      ConvertMorphFromDevice (ConvertMorphToDevice (some ⟨1000, 1000⟩)) = some c ∧
      |c.brightnessMs - 1000| ≤ 50 ∧ |c.fadeMs - 1000| ≤ 1667 :=
  morph_roundtrip 1000 1000 (by norm_num) (by norm_num) (by norm_num) (by norm_num)

/-- C4 counterexample: at `(brightnessMs, fadeMs) = (1000, 2500)` (inside the
claimed ranges) the round trip returns `fadeMs = 3333`, which misses the
original by 833 ms — more than the claimed 400 ms tolerance. -/
theorem morph_roundtrip_cex :
    ConvertMorphFromDevice (ConvertMorphToDevice (some ⟨1000, 2500⟩)) =
      some ⟨1000, 3333⟩ ∧ ¬ (|(3333 : ℤ) - 2500| ≤ 400) := by
  constructor
  · rw [convertMorphFromDevice_toDevice ⟨1000, 2500⟩ (by norm_num) (by norm_num)]
    decide
  · decide

/-- C6: the whirl converters match the spec's formulas — forward maps
non-positive input to 0 and positive input to `round(256 - ms/15)` clamped to
`[1, 510]`; the inverse maps non-positive input to 0 and positive input to
`max(1, 256 - v) * 15`; the four documented round-trip values hold, in
particular 1000 ms → device 189 → 1005 ms. -/
theorem whirl_conversion_spec :
    (∀ ms : ℤ, ms ≤ 0 → ConvertWhirlToDevice ms = 0) ∧
    (∀ ms : ℤ, 0 < ms →
        ConvertWhirlToDevice ms = min 510 (max 1 (goRound (256 - (ms : ℚ) / 15)))) ∧
    (∀ v : ℤ, v ≤ 0 → ConvertDeviceWhirlToMs v = 0) ∧
    (∀ v : ℤ, 0 < v → ConvertDeviceWhirlToMs v = max 1 (256 - v) * 15) ∧
    ConvertWhirlToDevice 1000 = 189 ∧
    ConvertDeviceWhirlToMs 189 = 1005 ∧
    ConvertDeviceWhirlToMs (ConvertWhirlToDevice 15) = 15 ∧
    ConvertDeviceWhirlToMs (ConvertWhirlToDevice 1000) = 1005 ∧
    ConvertDeviceWhirlToMs (ConvertWhirlToDevice 3000) = 3000 ∧
    ConvertDeviceWhirlToMs (ConvertWhirlToDevice 7650) = 3825 := by
  refine ⟨?_, ?_, ?_, ?_, ?_, ?_, ?_, ?_, ?_, ?_⟩
  · intro ms h
    simp [ConvertWhirlToDevice, h]
  · exact fun ms h => convertWhirlToDevice_claim_form ms h
  · intro v h
    simp [ConvertDeviceWhirlToMs, h]
  · intro v hv
    rw [ConvertDeviceWhirlToMs, if_neg (not_le.mpr hv)]
    dsimp only
    congr 1
    split_ifs with h
    · rw [max_eq_left (by omega)]
    · rw [max_eq_right (by omega)]
  · rw [convertWhirlToDevice_int]; decide
  · decide
  · rw [convertWhirlToDevice_int]; decide
  · rw [convertWhirlToDevice_int]; decide
  · rw [convertWhirlToDevice_int]; decide
  · rw [convertWhirlToDevice_int]; decide

/-- Witness for C6 discharging each hypothesis at a concrete input. -/
theorem whirl_conversion_spec_witness :
    ConvertWhirlToDevice (-3) = 0 ∧
    ConvertWhirlToDevice 1000 = min 510 (max 1 (goRound (256 - (1000 : ℚ) / 15))) ∧
    ConvertDeviceWhirlToMs 0 = 0 ∧
    ConvertDeviceWhirlToMs 189 = max 1 (256 - 189) * 15 :=
  ⟨whirl_conversion_spec.1 (-3) (by norm_num),
   whirl_conversion_spec.2.1 1000 (by norm_num),
   whirl_conversion_spec.2.2.1 0 (by norm_num),
   whirl_conversion_spec.2.2.2.1 189 (by norm_num)⟩

/-! ## The shadow-state manager (`internal/state/state.go`)

Ring arrays (`[15]string` in Go) are modelled as `List String` of length 15;
every operation below preserves that length. The `map[string]interface{}`
context of a stack entry is modelled as an association list of tagged values,
and the event broadcaster as an append-only list of published events. -/

/-- A value stored in an effect's context map. -/
inductive CtxValue where
  | bool (b : Bool)
  | int (n : Int)
  | str (s : String)
deriving DecidableEq, Repr

/-- Effect context (`map[string]interface{}` shallow model). -/
abbrev Context := List (String × CtxValue)

/-- One entry of the effect stack (`state.EffectStackItem`). -/
structure EffectStackItem where
  name : String
  pattern : String
  context : Context
deriving DecidableEq, Repr

/-- The shadow LED state (`state.LedState`); `MorphConfig` doubles as
`state.MorphData`, which Go converts to `device.MorphConfig` by a direct
struct cast. -/
structure LedState where
  top : List String
  bottom : List String
  logoOn : Bool
  effect : String
  dim : Int
  topWhirlMs : Int
  bottomWhirlMs : Int
  topMorph : Option MorphConfig
  bottomMorph : Option MorphConfig
deriving DecidableEq, Repr

/-- Payload of a ring-update event. -/
inductive RingPayload where
  | segBg (segments : List String) (background : String)
  | colors (cs : List String)
  | reset
deriving DecidableEq, Repr

/-- An event published through the broadcaster. -/
inductive Event where
  | dimChanged (level : Int)
  | ringUpdate (ring : String) (payload : RingPayload)
deriving DecidableEq, Repr

/-- The state manager (`state.Manager`), with the published-event log in
place of the external broadcaster. -/
structure Manager where
  state : LedState
  effectStack : List EffectStackItem
  baseState : String
  events : List Event
deriving DecidableEq, Repr

/-- `state.NewManager`: all-black rings, full brightness, empty stack. -/
def NewManager : Manager :=
  { state :=
      { top := List.replicate 15 "000000"
        bottom := List.replicate 15 "000000"
        logoOn := false
        effect := ""
        dim := 255
        topWhirlMs := 0
        bottomWhirlMs := 0
        topMorph := none
        bottomMorph := none }
    effectStack := []
    baseState := ""
    events := [] }

/-- `Manager.UpdateBrightness`: store the level and publish a dim-changed
event, but only when the value actually changed. -/
def UpdateBrightness (m : Manager) (level : Int) : Manager :=
  if m.state.dim ≠ level then
    { m with
      state := { m.state with dim := level }
      events := m.events ++ [Event.dimChanged level] }
  else m

/-- `Manager.UpdateLogo`. -/
def UpdateLogo (m : Manager) (isOn : Bool) : Manager :=
  { m with state := { m.state with logoOn := isOn } }

/-- The segment-overlay loop of `Manager.UpdateRingSegments`: for each listed
color at position `i < 15` with a non-empty color, write it at index `i`. -/
def applySegmentColors (r : List String) (segments : List String) : List String :=
  segments.enum.foldl
    (fun acc p => if p.1 < 15 ∧ p.2 ≠ "" then acc.set p.1 p.2 else acc) r

/-- `Manager.UpdateRingSegments`: unknown ring names are ignored; otherwise
optionally fill with the background, overlay the given colors, and publish a
ring-update event carrying the raw arguments. -/
def UpdateRingSegments (m : Manager) (ring : String) (segments : List String)
    (background : String) : Manager :=
  if ring = "top" then
    let base := if background ≠ "" then List.replicate 15 background else m.state.top
    { m with
      state := { m.state with top := applySegmentColors base segments }
      events := m.events ++ [Event.ringUpdate ring (RingPayload.segBg segments background)] }
  else if ring = "bottom" then
    let base := if background ≠ "" then List.replicate 15 background else m.state.bottom
    { m with
      state := { m.state with bottom := applySegmentColors base segments }
      events := m.events ++ [Event.ringUpdate ring (RingPayload.segBg segments background)] }
  else m

/-- `Manager.UpdateEffect`. -/
def UpdateEffect (m : Manager) (effectName : String) : Manager :=
  { m with state := { m.state with effect := effectName } }

/-- `Manager.ClearEffect`. -/
def ClearEffect (m : Manager) : Manager :=
  { m with state := { m.state with effect := "" } }

/-- `Manager.SetActiveEffect` (textually identical to `UpdateEffect` in the
source). -/
def SetActiveEffect (m : Manager) (effectName : String) : Manager :=
  { m with state := { m.state with effect := effectName } }

/-- `Manager.Reset`: both rings all-black, logo off, effect cleared,
brightness kept; publishes two reset-flagged ring-update events. -/
def Reset (m : Manager) : Manager :=
  { m with
    state :=
      { m.state with
        top := List.replicate 15 "000000"
        bottom := List.replicate 15 "000000"
        logoOn := false
        effect := "" }
    events := m.events ++
      [Event.ringUpdate "top" RingPayload.reset,
       Event.ringUpdate "bottom" RingPayload.reset] }

/-- `Manager.PushEffect`: append to the stack and set the effect name. -/
def PushEffect (m : Manager) (name pattern : String) (context : Context) : Manager :=
  { m with
    effectStack := m.effectStack ++ [⟨name, pattern, context⟩]
    state := { m.state with effect := name } }

/-- `Manager.SetBaseState`. -/
def SetBaseState (m : Manager) (pattern : String) : Manager :=
  { m with baseState := pattern }

/-- `Manager.GetBaseState`. -/
def GetBaseState (m : Manager) : String := m.baseState

/-- `Manager.PopEffect`: remove the top entry and return the new current
effect (or a synthetic base-state entry, or `none`), together with the
updated manager. -/
def PopEffect (m : Manager) : Option EffectStackItem × Manager :=
  match m.effectStack with
  | [] => (none, { m with state := { m.state with effect := "" } })
  | _ :: _ =>
    let stack' := m.effectStack.dropLast
    match stack'.getLast? with
    | some current =>
      (some current,
        { m with effectStack := stack', state := { m.state with effect := current.name } })
    | none =>
      if m.baseState ≠ "" then
        (some ⟨"__base_state__", m.baseState,
              [("synthetic", CtxValue.bool true), ("isBase", CtxValue.bool true)]⟩,
          { m with effectStack := stack', state := { m.state with effect := "" } })
      else
        (none, { m with effectStack := stack', state := { m.state with effect := "" } })

/-- `Manager.GetCurrentEffect`: peek at the top of the stack. -/
def GetCurrentEffect (m : Manager) : Option EffectStackItem :=
  m.effectStack.getLast?

/-- `Manager.GetEffectStackDepth`. -/
def GetEffectStackDepth (m : Manager) : Nat := m.effectStack.length

/-- `Manager.UpdateWhirl`: unknown ring names are ignored. -/
def UpdateWhirl (m : Manager) (ring : String) (whirlMs : Int) : Manager :=
  if ring = "top" then { m with state := { m.state with topWhirlMs := whirlMs } }
  else if ring = "bottom" then { m with state := { m.state with bottomWhirlMs := whirlMs } }
  else m

/-- `Manager.UpdateMorph`: unknown ring names are ignored. -/
def UpdateMorph (m : Manager) (ring : String) (morph : Option MorphConfig) : Manager :=
  if ring = "top" then { m with state := { m.state with topMorph := morph } }
  else if ring = "bottom" then { m with state := { m.state with bottomMorph := morph } }
  else m

/-! ## The segment encoder (`Manager.buildRingSegments`) -/

/-- The inner counting loop of `buildRingSegments`: number of consecutive
indices `j, j+1, …` below 15 whose color equals `color` (structural fuel;
the caller passes 15, which always suffices). -/
def runLengthAux (ring : List String) (color : String) : Nat → Nat → Nat
  | 0, _ => 0
  | fuel + 1, j =>
    if j < 15 ∧ ring.getD j "" = color then 1 + runLengthAux ring color fuel (j + 1)
    else 0

/-- Embedding of `strings.ToUpper` restricted to ASCII (all colors are hex
strings; `Char.toUpper` only maps `a`–`z`, matching Go on such inputs). -/
def toUpperStr (s : String) : String := String.mk (s.data.map Char.toUpper)

/-- The outer scanning loop of `buildRingSegments` (structural fuel; the
caller passes 15, which always suffices since `i` grows every step). -/
def buildSegmentsAux (ring : List String) : Nat → Nat → List String
  | 0, _ => []
  | fuel + 1, i =>
    if i < 15 then
      let color := ring.getD i ""
      if color = "" ∨ color = "000000" then buildSegmentsAux ring fuel (i + 1)
      else
        let count := 1 + runLengthAux ring color 15 (i + 1)
        (intToString (i : Int) ++ "|" ++ intToString (count : Int) ++ "|" ++ toUpperStr color) ::
          buildSegmentsAux ring fuel (i + count)
    else []

/-- `Manager.buildRingSegments`: run-length encode a 15-slot ring into the
device segment syntax, skipping empty and all-black slots. -/
def buildRingSegments (ring : List String) : String :=
  String.intercalate "|" (buildSegmentsAux ring 15 0)

/-- `Manager.BuildStateQuery`: serialize the whole shadow state into one
device query string.  Note that the whirl fields are emitted as the stored
millisecond values, with no unit conversion. -/
def BuildStateQuery (m : Manager) : String :=
  let parts : List String := ["dim=" ++ intToString m.state.dim]
  let parts := parts ++ ["top_init=1"]
  let topSegments := buildRingSegments m.state.top
  let parts := if topSegments ≠ "" then parts ++ ["top=" ++ topSegments] else parts
  let parts := if m.state.topWhirlMs > 0 then
      parts ++ ["top_whirl=" ++ intToString m.state.topWhirlMs] else parts
  let parts := match m.state.topMorph with
    | some md => parts ++ ["top_morph=" ++ ConvertMorphToDevice (some md)]
    | none => parts
  let parts := parts ++ ["bottom_init=1"]
  let bottomSegments := buildRingSegments m.state.bottom
  let parts := if bottomSegments ≠ "" then parts ++ ["bottom=" ++ bottomSegments] else parts
  let parts := if m.state.bottomWhirlMs > 0 then
      parts ++ ["bottom_whirl=" ++ intToString m.state.bottomWhirlMs] else parts
  let parts := match m.state.bottomMorph with
    | some md => parts ++ ["bottom_morph=" ++ ConvertMorphToDevice (some md)]
    | none => parts
  let parts := if m.state.logoOn then parts ++ ["logo=on"] else parts ++ ["logo=off"]
  String.intercalate "&" parts

/-- Declarative description of the per-ring parts of the state query, with
the whirl value emitted in milliseconds as the code does. -/
def ringQueryParts (ring : String) (colors : List String) (whirlMs : Int)
    (morph : Option MorphConfig) : List String :=
  [ring ++ "_init=1"] ++
  (if buildRingSegments colors ≠ "" then [ring ++ "=" ++ buildRingSegments colors] else []) ++
  (if whirlMs > 0 then [ring ++ "_whirl=" ++ intToString whirlMs] else []) ++
  (match morph with
   | some md => [ring ++ "_morph=" ++ ConvertMorphToDevice (some md)]
   | none => [])

/-- Declarative description of the full state query (amended claim C3):
brightness, top ring, bottom ring, logo. -/
def StateQueryParts (m : Manager) : List String :=
  ["dim=" ++ intToString m.state.dim] ++
  ringQueryParts "top" m.state.top m.state.topWhirlMs m.state.topMorph ++
  ringQueryParts "bottom" m.state.bottom m.state.bottomWhirlMs m.state.bottomMorph ++
  [if m.state.logoOn then "logo=on" else "logo=off"]

/-- Per-ring parts exactly as claim C3 words them, i.e. with the whirl value
sent through `ConvertWhirlToDevice` — this is what the code does NOT do. -/
def ringQueryPartsClaimed (ring : String) (colors : List String) (whirlMs : Int)
    (morph : Option MorphConfig) : List String :=
  [ring ++ "_init=1"] ++
  (if buildRingSegments colors ≠ "" then [ring ++ "=" ++ buildRingSegments colors] else []) ++
  (if whirlMs > 0 then [ring ++ "_whirl=" ++ intToString (ConvertWhirlToDevice whirlMs)] else []) ++
  (match morph with
   | some md => [ring ++ "_morph=" ++ ConvertMorphToDevice (some md)]
   | none => [])

/-- The full state query as claim C3 words it (whirl device-converted). -/
def StateQueryPartsClaimed (m : Manager) : List String :=
  ["dim=" ++ intToString m.state.dim] ++
  ringQueryPartsClaimed "top" m.state.top m.state.topWhirlMs m.state.topMorph ++
  ringQueryPartsClaimed "bottom" m.state.bottom m.state.bottomWhirlMs m.state.bottomMorph ++
  [if m.state.logoOn then "logo=on" else "logo=off"]

/-! ## The segment decoder (`parseLedColors`, tools layer) -/

/-- Leading run of decimal digits, as scanned by `fmt.Sscanf`'s `%d` verb
after the sign; `none` when no digit is present. -/
def leadingDigitsVal (l : List Char) : Option Nat :=
  let ds := l.takeWhile (fun c => decide ('0' ≤ c ∧ c ≤ '9'))
  if ds = [] then none else parseDigitsAux 0 ds

/-- Embedding of `fmt.Sscanf(s, "%d", &x)`: skip leading whitespace, optional
sign, then a non-empty digit run; trailing characters are ignored. -/
def sscanfInt (s : String) : Option Int :=
  let l := s.data.dropWhile (fun c => decide (c = ' ' ∨ c = '\t' ∨ c = '\n' ∨ c = '\r'))
  match l with
  | [] => none
  | c :: rest =>
    if c = '-' then (leadingDigitsVal rest).map (fun v => -(v : Int))
    else if c = '+' then (leadingDigitsVal rest).map (fun v => (v : Int))
    else (leadingDigitsVal (c :: rest)).map (fun v => (v : Int))

/-- The write loop of `parseLedColors`:
`for i := 0; i < count && startLed+i < 15; i++ { colors[startLed+i] = color }`.
When `count > 0` and `startLed < 0` the first iteration indexes the slice at
a negative position and Go panics with "index out of range"; the panic is
modelled as `none`. Otherwise the loop writes exactly the indices in
`[startLed, startLed+count) ∩ [0, 15)`. -/
def writeSegmentRun (colors : List String) (startLed count : Int) (color : String) :
    Option (List String) :=
  if 0 < count ∧ startLed < 0 then none
  else some (colors.enum.map (fun p =>
    if startLed ≤ (p.1 : Int) ∧ (p.1 : Int) < startLed + count then color else p.2))

/-- Embedding of `parseLedColors` (tools layer): start from 15 slots of
background (or black), then apply each `start|count|COLOR` token, skipping
tokens that do not split into three fields or whose numeric fields do not
scan; `none` models the panic of a negative start index. -/
def parseLedColors (segments : List String) (background : String) : Option (List String) :=
  let defaultColor := if background ≠ "" then background else "000000"
  segments.foldl
    (fun acc segment =>
      acc.bind fun colors =>
        match splitOnBar segment with
        | [p0, p1, p2] =>
          match sscanfInt p0 with
          | none => some colors
          | some startLed =>
            match sscanfInt p1 with
            | none => some colors
            | some count => writeSegmentRun colors startLed count p2
        | _ => some colors)
    (some (List.replicate 15 defaultColor))

example : parseLedColors ["0|2|FF0000"] "" =
    some (["FF0000", "FF0000"] ++ List.replicate 13 "000000") := by decide

/-! ## Claim C10: `Reset` frame conditions -/

/-- C10: `Reset` rewrites only the two ring arrays (to all black), the logo
flag (off) and the effect name (empty); it retains brightness and leaves the
whirl and morph animation fields, the effect stack and the base state
untouched. -/
theorem reset_frame (m : Manager) :
    (Reset m).state.top = List.replicate 15 "000000" ∧
    (Reset m).state.bottom = List.replicate 15 "000000" ∧
    (Reset m).state.logoOn = false ∧
    (Reset m).state.effect = "" ∧
    (Reset m).state.dim = m.state.dim ∧
    (Reset m).state.topWhirlMs = m.state.topWhirlMs ∧
    (Reset m).state.bottomWhirlMs = m.state.bottomWhirlMs ∧
    (Reset m).state.topMorph = m.state.topMorph ∧
    (Reset m).state.bottomMorph = m.state.bottomMorph ∧
    (Reset m).effectStack = m.effectStack ∧
    (Reset m).baseState = m.baseState :=
  ⟨rfl, rfl, rfl, rfl, rfl, rfl, rfl, rfl, rfl, rfl, rfl⟩

/-! ## Claim C9: unknown ring names are ignored -/

/-- C9: for a ring name other than `"top"` and `"bottom"`, `UpdateWhirl`,
`UpdateMorph` and `UpdateRingSegments` return the manager completely
unchanged (state, stack, base state and event log) and cannot fail. -/
theorem update_invalid_ring_noop (m : Manager) (ring : String) (w : Int)
    (mo : Option MorphConfig) (segs : List String) (bg : String)
    (h1 : ring ≠ "top") (h2 : ring ≠ "bottom") :
    UpdateWhirl m ring w = m ∧ UpdateMorph m ring mo = m ∧
    UpdateRingSegments m ring segs bg = m := by
  refine ⟨?_, ?_, ?_⟩ <;> simp [UpdateWhirl, UpdateMorph, UpdateRingSegments, h1, h2]

/-- Witness for C9 at the concrete ring name `"middle"`. -/
theorem update_invalid_ring_noop_witness :
    UpdateWhirl NewManager "middle" 7 = NewManager ∧
    UpdateMorph NewManager "middle" none = NewManager ∧
    UpdateRingSegments NewManager "middle" ["FF0000"] "00FF00" = NewManager :=
  update_invalid_ring_noop NewManager "middle" 7 none ["FF0000"] "00FF00"
    (by decide) (by decide)

/-! ## Claim C8: `UpdateBrightness` deduplicates its event -/

/-- Number of dim-changed events in an event log. -/
def dimEventCount (events : List Event) : Nat :=
  (events.filter fun e =>
    match e with
    | Event.dimChanged _ => true
    | _ => false).length

/-- C8: `UpdateBrightness` stores the given level and publishes a dim-changed
event exactly when the level differs from the stored brightness; in
particular two successive `UpdateBrightness 128` calls on a fresh manager
publish exactly one dim-changed event. -/
theorem updateBrightness_spec :
    (∀ (m : Manager) (level : Int),
        (UpdateBrightness m level).state.dim = level ∧
        (UpdateBrightness m level).events =
          m.events ++ (if m.state.dim = level then [] else [Event.dimChanged level])) ∧
    dimEventCount (UpdateBrightness (UpdateBrightness NewManager 128) 128).events = 1 := by
  constructor
  · intro m level
    by_cases h : m.state.dim = level
    · rw [UpdateBrightness, if_neg (not_ne_iff.mpr h)]
      exact ⟨h, by simp [h]⟩
    · rw [UpdateBrightness, if_pos h]
      exact ⟨rfl, by simp [h]⟩
  · decide

/-! ## Claim C5: the segment decoder panics on a negative start index -/

/-- C5 (code bug): the decoder is tolerant of malformed tokens — a token that
does not split into three fields or whose numeric fields do not scan is
skipped while the rest of the update still applies — but a token whose start
index scans as a negative number (e.g. `-1|1|FF0000`, which passes the tool
layer's `isValidSegmentFormat` check since that only validates the color
field) makes the write loop index the colors slice at a negative position,
an index-out-of-range panic (`none` in this model), contradicting the
claimed "never fails on any input". -/
theorem parseLedColors_negative_start_panics :
    parseLedColors ["-1|1|FF0000"] "" = none ∧
    parseLedColors ["not-a-token", "5", "2x|y|FF0000", "1|2|00FF00"] "CCCCCC" =
      some ["CCCCCC", "00FF00", "00FF00", "CCCCCC", "CCCCCC", "CCCCCC", "CCCCCC", "CCCCCC",
            "CCCCCC", "CCCCCC", "CCCCCC", "CCCCCC", "CCCCCC", "CCCCCC", "CCCCCC"] := by
  constructor
  · decide
  · decide

/-! ## Claim C2: the top-of-stack/effect-field invariant -/

/-- The invariant of claim C2 as a boolean: when the effect stack is
non-empty, the top entry's name equals the state's effect field. -/
def effectInvariantB (m : Manager) : Bool :=
  match m.effectStack.getLast? with
  | none => true
  | some e => e.name == m.state.effect

/-- The invariant of claim C2. -/
@[reducible] def EffectInvariant (m : Manager) : Prop := effectInvariantB m = true

lemma effectInvariant_of_eq {m m' : Manager} (hs : m'.effectStack = m.effectStack)
    (he : m'.state.effect = m.state.effect) (h : EffectInvariant m) : EffectInvariant m' := by
  unfold EffectInvariant effectInvariantB at *
  rw [hs, he]
  exact h

/-- C2 (amended): the invariant "top stack entry's name = effect field" is
preserved by `PushEffect`, `PopEffect` and the field updaters (brightness,
logo, ring segments, whirl, morph, base state).  It is NOT preserved by
`Reset`, `SetActiveEffect`, `UpdateEffect` or `ClearEffect`, which write the
effect field without touching the stack — see the counterexample. -/
theorem effectInvariant_preserved (m : Manager) (name pattern : String) (ctx : Context)
    (level : Int) (isOn : Bool) (ring : String) (segs : List String) (bg : String)
    (w : Int) (mo : Option MorphConfig) (pat : String) (hInv : EffectInvariant m) :
    EffectInvariant (PushEffect m name pattern ctx) ∧
    EffectInvariant (PopEffect m).2 ∧
    EffectInvariant (UpdateBrightness m level) ∧
    EffectInvariant (UpdateLogo m isOn) ∧
    EffectInvariant (UpdateRingSegments m ring segs bg) ∧
    EffectInvariant (UpdateWhirl m ring w) ∧
    EffectInvariant (UpdateMorph m ring mo) ∧
    EffectInvariant (SetBaseState m pat) := by
  refine ⟨?_, ?_, ?_, ?_, ?_, ?_, ?_, ?_⟩
  · unfold EffectInvariant effectInvariantB PushEffect
    simp [List.getLast?_concat]
  · rw [PopEffect]
    rcases hstack : m.effectStack with _ | ⟨x, xs⟩
    · unfold EffectInvariant effectInvariantB
      simp [hstack]
    · dsimp only
      rcases hlast : (x :: xs).dropLast.getLast? with _ | e
      · dsimp only
        split_ifs with hbase
        · unfold EffectInvariant effectInvariantB
          simp [hlast]
        · unfold EffectInvariant effectInvariantB
          simp [hlast]
      · unfold EffectInvariant effectInvariantB
        simp [hlast]
  · rw [UpdateBrightness]
    split_ifs with h
    · exact effectInvariant_of_eq rfl rfl hInv
    · exact hInv
  · exact effectInvariant_of_eq rfl rfl hInv
  · rw [UpdateRingSegments]
    split_ifs <;> exact hInv
  · rw [UpdateWhirl]
    split_ifs <;> exact hInv
  · rw [UpdateMorph]
    split_ifs <;> exact hInv
  · exact effectInvariant_of_eq rfl rfl hInv

/-- Witness for C2's amended theorem on a fresh manager. -/
theorem effectInvariant_preserved_witness :
    EffectInvariant (PushEffect NewManager "x" "p" []) ∧
    EffectInvariant (PopEffect NewManager).2 ∧
    EffectInvariant (UpdateBrightness NewManager 10) ∧
    EffectInvariant (UpdateLogo NewManager true) ∧
    EffectInvariant (UpdateRingSegments NewManager "top" [] "") ∧
    EffectInvariant (UpdateWhirl NewManager "top" 5) ∧
    EffectInvariant (UpdateMorph NewManager "top" none) ∧
    EffectInvariant (SetBaseState NewManager "b") :=
  effectInvariant_preserved NewManager "x" "p" [] 10 true "top" [] "" 5 none "b" (by decide)

/-- C2 counterexample: `Reset` breaks the invariant on a reachable state —
after pushing an effect the invariant holds, and `Reset` (one of the claim's
listed operations) destroys it by clearing the effect field while leaving
the pushed entry on the stack. -/
theorem effectInvariant_reset_cex :
    EffectInvariant (PushEffect NewManager "glow" "pattern" []) ∧
    ¬ EffectInvariant (Reset (PushEffect NewManager "glow" "pattern" [])) := by
  constructor
  · decide
  · decide

/-! ## Claim C1: `PopEffect` case analysis and the push/pop law -/

/-- Push a list of `(name, pattern, context)` entries in order. -/
def pushAll (m : Manager) : List (String × String × Context) → Manager
  | [] => m
  | e :: es => pushAll (PushEffect m e.1 e.2.1 e.2.2) es

/-- Pop `n` times, keeping only the manager. -/
def popN : Nat → Manager → Manager
  | 0, m => m
  | n + 1, m => popN n (PopEffect m).2

lemma popEffect_stack (m : Manager) :
    (PopEffect m).2.effectStack = m.effectStack.dropLast := by
  rw [PopEffect]
  rcases hstack : m.effectStack with _ | ⟨x, xs⟩
  · simp [hstack]
  · dsimp only
    rcases hlast : (x :: xs).dropLast.getLast? with _ | e
    · dsimp only
      split_ifs <;> rfl
    · rfl

lemma pushAll_stack (es : List (String × String × Context)) :
    ∀ m : Manager,
      (pushAll m es).effectStack =
        m.effectStack ++ es.map (fun e => ⟨e.1, e.2.1, e.2.2⟩) := by
  induction es with
  | nil => intro m; simp [pushAll]
  | cons e es ih =>
    intro m
    rw [pushAll, ih]
    simp [PushEffect]

lemma popN_stack (n : Nat) :
    ∀ m : Manager,
      (popN n m).effectStack = m.effectStack.take (m.effectStack.length - n) := by
  induction n with
  | zero => intro m; rw [popN, Nat.sub_zero, List.take_length]
  | succ n ih =>
    intro m
    rw [popN, ih, popEffect_stack, List.length_dropLast, List.dropLast_eq_take,
      List.take_take]
    congr 1
    omega

/-- C1: `PopEffect` implements exactly the claimed case analysis — with two
or more stacked entries it removes the top, sets the effect field to the new
top's name and returns the new top; with exactly one entry it removes it and
returns either a synthetic `__base_state__` entry (when a base state is set)
or `nil`, clearing the effect field; on an empty stack it clears the effect
field and returns `nil`.  Consequently pushing `N ≥ 1` entries on a fresh
manager and popping `N − 1` times leaves exactly one entry, and
`GetCurrentEffect` returns the first pushed entry. -/
theorem popEffect_spec :
    (∀ (m : Manager) (e : EffectStackItem), 2 ≤ m.effectStack.length →
        m.effectStack.dropLast.getLast? = some e →
        PopEffect m = (some e,
          { m with effectStack := m.effectStack.dropLast,
                   state := { m.state with effect := e.name } })) ∧
    (∀ m : Manager, m.effectStack.length = 1 → m.baseState ≠ "" →
        PopEffect m = (some ⟨"__base_state__", m.baseState,
            [("synthetic", CtxValue.bool true), ("isBase", CtxValue.bool true)]⟩,
          { m with effectStack := [], state := { m.state with effect := "" } })) ∧
    (∀ m : Manager, m.effectStack.length = 1 → m.baseState = "" →
        PopEffect m = (none,
          { m with effectStack := [], state := { m.state with effect := "" } })) ∧
    (∀ m : Manager, m.effectStack = [] →
        PopEffect m = (none, { m with state := { m.state with effect := "" } })) ∧
    (∀ (first : String × String × Context) (rest : List (String × String × Context)),
        GetEffectStackDepth (popN rest.length (pushAll NewManager (first :: rest))) = 1 ∧
        GetCurrentEffect (popN rest.length (pushAll NewManager (first :: rest))) =
          some ⟨first.1, first.2.1, first.2.2⟩) := by
  refine ⟨?_, ?_, ?_, ?_, ?_⟩
  · intro m e hlen hlast
    rcases hstack : m.effectStack with _ | ⟨x, xs⟩
    · rw [hstack] at hlen
      simp at hlen
    · rw [hstack] at hlast
      rw [PopEffect, hstack]
      dsimp only
      rw [hlast]
  · intro m hlen hbase
    rcases hstack : m.effectStack with _ | ⟨x, xs⟩
    · rw [hstack] at hlen
      simp at hlen
    · have hxs : xs = [] := by
        rw [hstack] at hlen
        simpa using hlen
      subst hxs
      rw [PopEffect, hstack]
      dsimp only
      rw [List.dropLast_single]
      dsimp only [List.getLast?]
      rw [if_pos hbase]
  · intro m hlen hbase
    rcases hstack : m.effectStack with _ | ⟨x, xs⟩
    · rw [hstack] at hlen
      simp at hlen
    · have hxs : xs = [] := by
        rw [hstack] at hlen
        simpa using hlen
      subst hxs
      rw [PopEffect, hstack]
      dsimp only
      rw [List.dropLast_single]
      dsimp only [List.getLast?]
      rw [if_neg (not_ne_iff.mpr hbase)]
  · intro m h
    rw [PopEffect, h]
  · intro first rest
    have hstack := popN_stack rest.length (pushAll NewManager (first :: rest))
    rw [pushAll_stack (first :: rest) NewManager] at hstack
    have hnil : NewManager.effectStack = [] := rfl
    rw [hnil, List.nil_append] at hstack
    have hlen : ((first :: rest).map
        (fun e => (⟨e.1, e.2.1, e.2.2⟩ : EffectStackItem))).length = rest.length + 1 := by
      simp
    rw [hlen] at hstack
    have hone : rest.length + 1 - rest.length = 1 := by omega
    rw [hone, List.map_cons] at hstack
    have htake : List.take 1 ((⟨first.1, first.2.1, first.2.2⟩ : EffectStackItem) ::
        rest.map (fun e => ⟨e.1, e.2.1, e.2.2⟩)) = [⟨first.1, first.2.1, first.2.2⟩] := rfl
    rw [htake] at hstack
    constructor
    · rw [GetEffectStackDepth, hstack]
      rfl
    · rw [GetCurrentEffect, hstack]
      rfl

/-- Witness for C1, discharging each case's hypotheses on concrete stacks of
sizes two, one (with and without a base state) and zero. -/
theorem popEffect_spec_witness :
    (PopEffect (PushEffect (PushEffect NewManager "a" "pa" []) "b" "pb" []) =
      (some ⟨"a", "pa", []⟩,
        { PushEffect (PushEffect NewManager "a" "pa" []) "b" "pb" [] with
          effectStack :=
            (PushEffect (PushEffect NewManager "a" "pa" []) "b" "pb" []).effectStack.dropLast,
          state := { (PushEffect (PushEffect NewManager "a" "pa" []) "b" "pb" []).state with
                     effect := "a" } })) ∧
    (PopEffect (SetBaseState (PushEffect NewManager "x" "p" []) "base") =
      (some ⟨"__base_state__", "base",
          [("synthetic", CtxValue.bool true), ("isBase", CtxValue.bool true)]⟩,
        { SetBaseState (PushEffect NewManager "x" "p" []) "base" with
          effectStack := [],
          state := { (SetBaseState (PushEffect NewManager "x" "p" []) "base").state with
                     effect := "" } })) ∧
    (PopEffect (PushEffect NewManager "x" "p" []) =
      (none,
        { PushEffect NewManager "x" "p" [] with
          effectStack := [],
          state := { (PushEffect NewManager "x" "p" []).state with effect := "" } })) ∧
    (PopEffect NewManager =
      (none, { NewManager with state := { NewManager.state with effect := "" } })) :=
  ⟨popEffect_spec.1 _ ⟨"a", "pa", []⟩ (by decide) (by decide),
   popEffect_spec.2.1 _ (by decide) (by decide),
   popEffect_spec.2.2.1 _ (by decide) (by decide),
   popEffect_spec.2.2.2.1 _ rfl⟩

/-! ## Claim C3: the state-query serialization -/

set_option maxHeartbeats 2000000 in
/-- C3 (amended): `BuildStateQuery` emits exactly the described parts joined
by `&` in the described order — brightness, then for the top and then the
bottom ring the ring-clear marker, the segment string (when non-empty), the
whirl parameter (when positive) and the morph parameter (when set), then the
logo state — with the whirl value emitted as the stored milliseconds value
directly, NOT converted by the whirl unit converter as the claim stated
(see the counterexample). -/
theorem buildStateQuery_parts (m : Manager) :
    BuildStateQuery m = String.intercalate "&" (StateQueryParts m) := by
  rw [BuildStateQuery, StateQueryParts, ringQueryParts.eq_def, ringQueryParts.eq_def]
  set ts := buildRingSegments m.state.top with hts
  set bs := buildRingSegments m.state.bottom with hbs
  rcases m.state.topMorph with _ | tm <;>
    rcases m.state.bottomMorph with _ | bm <;>
      dsimp only <;> split_ifs <;>
        (simp only [List.append_assoc, List.cons_append, List.nil_append, List.append_nil]; rfl)

/-- A state with a 1000 ms top whirl, used to refute the claimed conversion. -/
def whirlCexManager : Manager :=
  { NewManager with state := { NewManager.state with topWhirlMs := 1000 } }

/-- C3 counterexample: with a 1000 ms top whirl the code emits
`top_whirl=1000` (the raw milliseconds), while the claim's device-converted
serialization would emit `top_whirl=189`; the two disagree. -/
theorem buildStateQuery_whirl_cex :
    BuildStateQuery whirlCexManager =
      "dim=255&top_init=1&top_whirl=1000&bottom_init=1&logo=off" ∧
    String.intercalate "&" (StateQueryPartsClaimed whirlCexManager) =
      "dim=255&top_init=1&top_whirl=189&bottom_init=1&logo=off" ∧
    BuildStateQuery whirlCexManager ≠
      String.intercalate "&" (StateQueryPartsClaimed whirlCexManager) := by
  have h189 : ConvertWhirlToDevice 1000 = 189 := by rw [convertWhirlToDevice_int]; decide
  have h1 : BuildStateQuery whirlCexManager =
      "dim=255&top_init=1&top_whirl=1000&bottom_init=1&logo=off" := by decide
  have h2 : String.intercalate "&" (StateQueryPartsClaimed whirlCexManager) =
      "dim=255&top_init=1&top_whirl=189&bottom_init=1&logo=off" := by
    rw [StateQueryPartsClaimed, ringQueryPartsClaimed.eq_def, ringQueryPartsClaimed.eq_def]
    rw [show whirlCexManager.state.topWhirlMs = (1000 : Int) from rfl, h189]
    decide
  exact ⟨h1, h2, by rw [h1, h2]; decide⟩

/-! ## Claim C7: the segment encoder emits maximal runs -/

/-- Declarative run-length encoding starting at index `i`: skip empty and
all-black colors; for each maximal run of consecutive equal colors emit one
`start|count|COLOR` token with the color upper-cased. -/
def rleTokens : Nat → List String → List String
  | _, [] => []
  | i, c :: rest =>
    if c = "" ∨ c = "000000" then rleTokens (i + 1) rest
    else
      (intToString (i : Int) ++ "|" ++
        intToString ((((rest.takeWhile (fun x => x == c)).length + 1 : Nat) : Int)) ++ "|" ++
        toUpperStr c) ::
        rleTokens (i + ((rest.takeWhile (fun x => x == c)).length + 1))
          (rest.drop (rest.takeWhile (fun x => x == c)).length)
termination_by _ l => l.length
decreasing_by
  all_goals simp [List.length_drop]
  all_goals omega

lemma runLengthAux_takeWhile (ring : List String) (color : String) (hlen : ring.length = 15) :
    ∀ fuel j, 15 - j ≤ fuel →
      runLengthAux ring color fuel j =
        ((ring.drop j).takeWhile (fun x => x == color)).length := by
  intro fuel
  induction fuel with
  | zero =>
    intro j h
    rw [runLengthAux, List.drop_eq_nil_of_le (by omega)]
    rfl
  | succ fuel ih =>
    intro j h
    rw [runLengthAux]
    by_cases hj : j < 15
    · have hjl : j < ring.length := by omega
      have hgd : ring.getD j "" = ring[j] := by
        rw [List.getD_eq_getElem?_getD, List.getElem?_eq_getElem hjl]
        rfl
      rw [List.drop_eq_getElem_cons hjl, List.takeWhile_cons]
      by_cases hc : ring[j] = color
      · rw [if_pos ⟨hj, by rw [hgd]; exact hc⟩]
        have hbeq : (ring[j] == color) = true := beq_iff_eq.mpr hc
        simp only [hbeq, if_true]
        rw [List.length_cons, ih (j + 1) (by omega)]
        omega
      · have hbeq : (ring[j] == color) = false := beq_eq_false_iff_ne.mpr hc
        rw [if_neg (by rw [hgd]; exact fun hand => hc hand.2), hbeq]
        rfl
    · rw [if_neg (fun hand => hj hand.1), List.drop_eq_nil_of_le (by omega)]
      rfl

lemma buildSegmentsAux_rle (ring : List String) (hlen : ring.length = 15) :
    ∀ fuel i, 15 - i ≤ fuel →
      buildSegmentsAux ring fuel i = rleTokens i (ring.drop i) := by
  intro fuel
  induction fuel with
  | zero =>
    intro i h
    rw [buildSegmentsAux, List.drop_eq_nil_of_le (by omega), rleTokens]
  | succ fuel ih =>
    intro i h
    rw [buildSegmentsAux]
    by_cases hi : i < 15
    · rw [if_pos hi]
      have hil : i < ring.length := by omega
      have hgd : ring.getD i "" = ring[i] := by
        rw [List.getD_eq_getElem?_getD, List.getElem?_eq_getElem hil]
        rfl
      rw [List.drop_eq_getElem_cons hil, rleTokens]
      by_cases hskip : ring[i] = "" ∨ ring[i] = "000000"
      · rw [hgd, if_pos hskip, if_pos hskip]
        exact ih (i + 1) (by omega)
      · rw [hgd, if_neg hskip, if_neg hskip]
        have hrun : runLengthAux ring ring[i] 15 (i + 1) =
            ((ring.drop (i + 1)).takeWhile (fun x => x == ring[i])).length :=
          runLengthAux_takeWhile ring ring[i] hlen 15 (i + 1) (by omega)
        set k := ((ring.drop (i + 1)).takeWhile (fun x => x == ring[i])).length with hk
        rw [hrun, List.drop_drop]
        dsimp only
        rw [show 1 + k = k + 1 from by omega, show i + 1 + k = i + (k + 1) from by omega]
        rw [ih (i + (k + 1)) (by omega)]
    · rw [if_neg hi, List.drop_eq_nil_of_le (by omega), rleTokens]

/-- C7: for every 15-slot color array the encoder scans left to right,
skips empty and all-black slots, emits one `start|count|COLOR` token (color
upper-cased) per maximal run of consecutive equal colors, and joins the
tokens with `|`; in particular the claimed example array encodes to
`0|3|FF0000|3|2|00FF00`. -/
theorem buildRingSegments_spec :
    (∀ l : List String, l.length = 15 →
        buildRingSegments l = String.intercalate "|" (rleTokens 0 l)) ∧
    buildRingSegments
        (["FF0000", "FF0000", "FF0000", "00FF00", "00FF00"] ++ List.replicate 10 "000000") =
      "0|3|FF0000|3|2|00FF00" := by
  constructor
  · intro l hl
    rw [buildRingSegments, buildSegmentsAux_rle l hl 15 0 (by omega)]
    rfl
  · decide

/-- Witness for C7's universal part on a concrete 15-slot array. -/
theorem buildRingSegments_spec_witness :
    buildRingSegments (List.replicate 15 "ff0000") =
      String.intercalate "|" (rleTokens 0 (List.replicate 15 "ff0000")) :=
  buildRingSegments_spec.1 (List.replicate 15 "ff0000") (by decide)

end UfoMcp
